import Mathlib

/-!
Verification of the spinmouse acquisition/storage pipeline.

The definitions below are a shallow embedding of the Python source
(`src/acquire.py`, with the legacy `spinmouse.py` agreeing where both
define a symbol):

* `FrameCounter` with `FrameCounter.update` embeds the ledger class
  `FrameCounter` (acquired/buffered/dropped counters over Python ints,
  `last_frameid` an optional int).
* `runCounter` folds `update` over a list of `(queue_length, frame_id)`
  observations, one per saved frame, exactly as `save_images` calls it.
* `acquire_images` embeds the acquisition loop: a trace of fetch events
  (valid frame / incomplete / SpinnakerException from `GetNextImage` /
  SpinnakerException from frame processing) is consumed until the stop
  event ends the loop; the outcome records the returned bool, the frames
  appended to the shared deque, and whether the `end_acquisition()` call
  after the loop was reached. The `Camera.begin_acquisition` and
  `Camera.end_acquisition` wrappers of `src/camera.py` catch
  `PySpin.SpinnakerException` internally and only print, so device
  failures of begin/end never raise into `acquire_images`; the model
  keeps flags for those device failures and reflects that they cannot
  influence the outcome.
* `PipeState`/`runPipe` embed the shared `images_queue` deque with the
  producer appending on the right, the consumer (`saveStep`, one
  iteration of the `save_images` loop) popping on the left, the
  `acquisition_complete_event` flag, and the maxlen-1 display deque.
* `saveGo` embeds the `save_images` loop's exit paths, tracking whether
  `logfile.close()` and `video_recorder.release()` were reached.
* `get_id_timestamp_from_chunk_data` embeds the chunk-data extraction
  helper, with Python local-variable binding made explicit so that the
  `return` of possibly-unbound locals is visible.
-/

/-- One captured image: an opaque pixel buffer token plus the chunk-data
frame id and timestamp the device attached to it. -/
structure Frame where
  image : Nat
  fid : Int
  ts : Int
deriving DecidableEq, Repr

/-- The ledger class `FrameCounter` from `src/acquire.py` (identical in
`spinmouse.py`): counters are Python ints, `last_frameid` starts as None. -/
structure FrameCounter where
  acquired : Int
  buffered : Int
  dropped : Int
  last_frameid : Option Int
deriving DecidableEq, Repr

/-- The freshly constructed counter (`FrameCounter.__init__`). -/
def FrameCounter.init : FrameCounter :=
  { acquired := 0, buffered := 0, dropped := 0, last_frameid := none }

/-- `FrameCounter.update(image_queue_length, frameid)`: increment
`acquired`, overwrite `buffered` with the queue length, and if
`last_frameid` is set add `frameid - last_frameid - 1` to `dropped`,
then record `frameid` as the last id. -/
def FrameCounter.update (c : FrameCounter) (image_queue_length : Int)
    (frameid : Int) : FrameCounter :=
  match c.last_frameid with
  | none =>
      { c with acquired := c.acquired + 1, buffered := image_queue_length,
               last_frameid := some frameid }
  | some l =>
      { c with acquired := c.acquired + 1, buffered := image_queue_length,
               dropped := c.dropped + (frameid - l - 1),
               last_frameid := some frameid }

/-- Fold `FrameCounter.update` over a list of
`(image_queue_length, frameid)` observations, one per saved frame, in
the order `save_images` makes the calls. -/
def runCounter (c : FrameCounter) : List (Int × Int) → FrameCounter
  | [] => c
  | (ql, fid) :: rest => runCounter (c.update ql fid) rest

/-- The spec's drop total `sum(f[i] - f[i-1] - 1 for i in 2..n)` over a
list of frame ids. -/
def dropSum : List Int → Int
  | [] => 0
  | [_] => 0
  | a :: b :: rest => (b - a - 1) + dropSum (b :: rest)

lemma update_last_some (c : FrameCounter) (ql fid : Int) :
    (c.update ql fid).last_frameid = some fid := by
  unfold FrameCounter.update
  cases c.last_frameid <;> rfl

lemma update_acquired (c : FrameCounter) (ql fid : Int) :
    (c.update ql fid).acquired = c.acquired + 1 := by
  unfold FrameCounter.update
  cases c.last_frameid <;> rfl

lemma update_dropped_of_some (c : FrameCounter) (ql fid l : Int)
    (h : c.last_frameid = some l) :
    (c.update ql fid).dropped = c.dropped + (fid - l - 1) := by
  unfold FrameCounter.update
  rw [h]

lemma runCounter_stats :
    ∀ (events : List (Int × Int)) (c : FrameCounter) (l : Int),
      c.last_frameid = some l →
      (runCounter c events).acquired = c.acquired + events.length ∧
      (runCounter c events).dropped =
        c.dropped + dropSum (l :: events.map Prod.snd) := by
  intro events
  induction events with
  | nil => intro c l h; simp [runCounter, dropSum]
  | cons e rest ih =>
      intro c l h
      obtain ⟨ql, fid⟩ := e
      have hlast : (c.update ql fid).last_frameid = some fid :=
        update_last_some c ql fid
      obtain ⟨h1, h2⟩ := ih (c.update ql fid) fid hlast
      refine ⟨?_, ?_⟩
      · show (runCounter (c.update ql fid) rest).acquired = _
        rw [h1, update_acquired]
        simp only [List.length_cons]
        push_cast
        ring
      · show (runCounter (c.update ql fid) rest).dropped = _
        rw [h2, update_dropped_of_some c ql fid l h]
        show _ = c.dropped + dropSum (l :: fid :: rest.map Prod.snd)
        rw [dropSum]
        ring

/-- C1: after folding `FrameCounter.update` over a strictly increasing
sequence of frame ids on a fresh counter, `acquired` equals the number of
frames and `dropped` equals the telescoping gap total; a length-1
sequence contributes nothing to `dropped` whatever its id. -/
theorem frameCounter_ledger_spec (events : List (Int × Int))
    (hmono : List.Chain' (· < ·) (events.map Prod.snd)) :
    (runCounter FrameCounter.init events).acquired = events.length ∧
    (runCounter FrameCounter.init events).dropped =
      dropSum (events.map Prod.snd) ∧
    ∀ ql fid : Int, (runCounter FrameCounter.init [(ql, fid)]).dropped = 0 := by
  refine ⟨?_, ?_, ?_⟩
  · cases events with
    | nil => simp [runCounter, FrameCounter.init]
    | cons e rest =>
        obtain ⟨ql, fid⟩ := e
        show (runCounter (FrameCounter.init.update ql fid) rest).acquired = _
        obtain ⟨h1, _⟩ := runCounter_stats rest (FrameCounter.init.update ql fid)
          fid (update_last_some _ ql fid)
        rw [h1, update_acquired]
        simp only [List.length_cons, FrameCounter.init]
        push_cast
        ring
  · cases events with
    | nil => simp [runCounter, FrameCounter.init, dropSum]
    | cons e rest =>
        obtain ⟨ql, fid⟩ := e
        show (runCounter (FrameCounter.init.update ql fid) rest).dropped = _
        obtain ⟨_, h2⟩ := runCounter_stats rest (FrameCounter.init.update ql fid)
          fid (update_last_some _ ql fid)
        rw [h2]
        have hd : (FrameCounter.init.update ql fid).dropped = 0 := by rfl
        rw [hd]
        simp
  · intro ql fid
    rfl

/-- Witness for C1 at the spec's end-to-end scenario: ids 1,2,4,5,7 give
acquired 5 and dropped 2. -/
theorem frameCounter_ledger_spec_witness :
    (runCounter FrameCounter.init
        [(3, 1), (2, 2), (1, 4), (0, 5), (0, 7)]).acquired = 5 ∧
    (runCounter FrameCounter.init
        [(3, 1), (2, 2), (1, 4), (0, 5), (0, 7)]).dropped =
      dropSum [1, 2, 4, 5, 7] ∧
    ∀ ql fid : Int,
      (runCounter FrameCounter.init [(ql, fid)]).dropped = 0 := by
  have h := frameCounter_ledger_spec
      [(3, 1), (2, 2), (1, 4), (0, 5), (0, 7)]
      (by simp [List.chain'_cons])
  exact ⟨by rw [h.1]; rfl, h.2.1, h.2.2⟩

lemma dropped_le_run :
    ∀ (events : List (Int × Int)) (c : FrameCounter) (l : Int),
      c.last_frameid = some l →
      List.Chain (· < ·) l (events.map Prod.snd) →
      c.dropped ≤ (runCounter c events).dropped := by
  intro events
  induction events with
  | nil => intro c l _ _; exact le_refl _
  | cons e rest ih =>
      intro c l h hchain
      obtain ⟨ql, fid⟩ := e
      rw [List.map_cons, List.chain_cons] at hchain
      obtain ⟨hlt, hchain'⟩ := hchain
      have step : c.dropped ≤ (c.update ql fid).dropped := by
        rw [update_dropped_of_some c ql fid l h]
        omega
      exact le_trans step
        (ih (c.update ql fid) fid (update_last_some c ql fid) hchain')

lemma dropped_mono_split :
    ∀ (pre post : List (Int × Int)) (c : FrameCounter) (l : Int),
      c.last_frameid = some l →
      List.Chain (· < ·) l ((pre ++ post).map Prod.snd) →
      (runCounter c pre).dropped ≤ (runCounter c (pre ++ post)).dropped := by
  intro pre
  induction pre with
  | nil =>
      intro post c l h hchain
      exact dropped_le_run post c l h hchain
  | cons e rest ih =>
      intro post c l h hchain
      obtain ⟨ql, fid⟩ := e
      rw [List.cons_append, List.map_cons, List.chain_cons] at hchain
      exact ih post (c.update ql fid) fid (update_last_some c ql fid) hchain.2

/-- C4 (amended): under the strict monotonic-id invariant (each new frame
id is greater than the stored `last_frameid`), the per-call drop
contribution `frameid - last_frameid - 1` is non-negative and is added to
`dropped`; consequently, for a fresh counter fed a strictly increasing id
sequence, `dropped` is non-decreasing along prefixes and non-negative. -/
theorem frameCounter_dropped_monotone :
    (∀ (c : FrameCounter) (ql fid l : Int), c.last_frameid = some l →
        l < fid →
        0 ≤ fid - l - 1 ∧
        (c.update ql fid).dropped = c.dropped + (fid - l - 1)) ∧
    (∀ (pre post : List (Int × Int)),
        List.Chain' (· < ·) ((pre ++ post).map Prod.snd) →
        (runCounter FrameCounter.init pre).dropped ≤
          (runCounter FrameCounter.init (pre ++ post)).dropped ∧
        0 ≤ (runCounter FrameCounter.init (pre ++ post)).dropped) := by
  constructor
  · intro c ql fid l h hlt
    exact ⟨by omega, update_dropped_of_some c ql fid l h⟩
  · intro pre post hchain
    cases hpre : pre with
    | nil =>
        subst hpre
        cases hpost : post with
        | nil => exact ⟨le_refl _, le_refl _⟩
        | cons e rest =>
            subst hpost
            obtain ⟨ql, fid⟩ := e
            rw [List.nil_append] at hchain ⊢
            rw [List.map_cons] at hchain
            have h0 : (FrameCounter.init.update ql fid).dropped = 0 := rfl
            have hd := dropped_le_run rest (FrameCounter.init.update ql fid)
              fid (update_last_some _ ql fid) hchain
            rw [h0] at hd
            exact ⟨hd, hd⟩
    | cons e rest =>
        subst hpre
        obtain ⟨ql, fid⟩ := e
        rw [List.cons_append, List.map_cons] at hchain
        have h0 : (FrameCounter.init.update ql fid).dropped = 0 := rfl
        have hmono := dropped_mono_split rest post
          (FrameCounter.init.update ql fid) fid (update_last_some _ ql fid)
          hchain
        have hnn := dropped_le_run (rest ++ post)
          (FrameCounter.init.update ql fid) fid (update_last_some _ ql fid)
          hchain
        rw [h0] at hnn
        exact ⟨hmono, hnn⟩

/-- Witness for C4 (amended) at concrete inputs: an update from last id 3
to id 7 contributes 3 drops, and the run over ids 1,4 keeps `dropped`
non-decreasing and non-negative. -/
theorem frameCounter_dropped_monotone_witness :
    (0 ≤ (7 : Int) - 3 - 1 ∧
      ((FrameCounter.init.update 0 3).update 0 7).dropped =
        (FrameCounter.init.update 0 3).dropped + ((7 : Int) - 3 - 1)) ∧
    ((runCounter FrameCounter.init [(0, 1)]).dropped ≤
        (runCounter FrameCounter.init ([(0, 1)] ++ [(0, 4)])).dropped ∧
      0 ≤ (runCounter FrameCounter.init ([(0, 1)] ++ [(0, 4)])).dropped) := by
  constructor
  · exact frameCounter_dropped_monotone.1 (FrameCounter.init.update 0 3)
      0 7 3 rfl (by omega)
  · exact frameCounter_dropped_monotone.2 [(0, 1)] [(0, 4)]
      (by simp [List.chain'_cons])

/-- Counterexample to C4 as stated: with the non-strict invariant
(new id equal to the stored `last_frameid` is allowed), the per-call
contribution at equal ids 5,5 is negative and `dropped` becomes -1. -/
theorem frameCounter_dropped_counterexample :
    (FrameCounter.init.update 0 5).last_frameid = some 5 ∧
    (5 : Int) ≤ 5 ∧
    ((FrameCounter.init.update 0 5).update 0 5).dropped = -1 ∧
    ¬ (0 ≤ (5 : Int) - 5 - 1) ∧
    ¬ (0 ≤ ((FrameCounter.init.update 0 5).update 0 5).dropped) := by
  refine ⟨rfl, le_refl _, rfl, by omega, ?_⟩
  show ¬ (0 ≤ (-1 : Int))
  omega

/-- One iteration's outcome of `camera_system.camera.cam.GetNextImage(50)`
and the frame-handling code that follows it in the `acquire_images` loop:
a complete frame, an incomplete frame (discarded), a
`PySpin.SpinnakerException` raised by `GetNextImage` itself (carrying
whether it was a grab timeout — the Python handler cannot tell), or a
`SpinnakerException` raised by the post-fetch processing
(`IsIncomplete`/`Convert`/`Release`/append). -/
inductive FetchEvent
  | frame (f : Frame)
  | incomplete (status : Int)
  | fetchErr (isTimeout : Bool)
  | procErr
deriving DecidableEq, Repr

/-- What a run of `acquire_images` did: the bool it returned, the frames
it appended to `images_queue` in order, and whether control reached the
`end_acquisition()` call after the loop. -/
structure AcqOutcome where
  result : Bool
  pushed : List Frame
  endCalled : Bool
deriving DecidableEq, Repr

/-- The `while acquisition_complete_event.is_set() is False` loop of
`acquire_images`: `fetchErr` is caught by the inner
`except PySpin.SpinnakerException` and retried whether or not it was a
timeout; `incomplete` is discarded; a frame is converted and appended; a
processing exception escapes to the outer handler, skipping the
`end_acquisition()` call and making the function return False. The event
list ending corresponds to the stop event being observed set, after which
the `Camera.end_acquisition` wrapper is called (it swallows any device
error) and `result`, still True, is returned. -/
def acquireGo : List FetchEvent → List Frame → AcqOutcome
  | [], pushed => { result := true, pushed := pushed, endCalled := true }
  | FetchEvent.frame f :: rest, pushed => acquireGo rest (pushed ++ [f])
  | FetchEvent.incomplete _ :: rest, pushed => acquireGo rest pushed
  | FetchEvent.fetchErr _ :: rest, pushed => acquireGo rest pushed
  | FetchEvent.procErr :: _, pushed =>
      { result := false, pushed := pushed, endCalled := false }

/-- `acquire_images` as a function of the device's behaviour: the flags
record whether the device's `BeginAcquisition` and `EndAcquisition`
calls succeed. `acquire_images` reaches those calls only through the
`Camera.begin_acquisition` / `Camera.end_acquisition` wrappers of
`src/camera.py`, whose `try/except PySpin.SpinnakerException` bodies
only print and return normally, so a device failure there never raises
into `acquire_images` and cannot change its outcome: the run is decided
by the loop events alone. -/
def acquire_images (_beginDeviceOk : Bool) (events : List FetchEvent)
    (_endDeviceOk : Bool) : AcqOutcome :=
  acquireGo events []

/-- C10: when `begin_acquisition` and `end_acquisition` succeed and every
loop event is a frame, an incomplete frame, or a fetch timeout, the stop
event makes `acquire_images` return True; in particular a run of nothing
but fetch timeouts returns True with no frame ever enqueued. -/
theorem acquire_images_timeouts_succeed (events : List FetchEvent) (n : Nat)
    (h : ∀ e ∈ events, e = FetchEvent.fetchErr true ∨
        (∃ f, e = FetchEvent.frame f) ∨ (∃ st, e = FetchEvent.incomplete st)) :
    (acquire_images true events true).result = true ∧
    acquire_images true (List.replicate n (FetchEvent.fetchErr true)) true =
      { result := true, pushed := [], endCalled := true } := by
  constructor
  · show (acquireGo events []).result = true
    have main : ∀ (es : List FetchEvent) (acc : List Frame),
        (∀ e ∈ es, e = FetchEvent.fetchErr true ∨
          (∃ f, e = FetchEvent.frame f) ∨
          (∃ st, e = FetchEvent.incomplete st)) →
        (acquireGo es acc).result = true := by
      intro es
      induction es with
      | nil => intro acc _; rfl
      | cons e rest ih =>
          intro acc he
          have hmem := he e (List.mem_cons_self e rest)
          have hrest : ∀ x ∈ rest, x = FetchEvent.fetchErr true ∨
              (∃ f, x = FetchEvent.frame f) ∨
              (∃ st, x = FetchEvent.incomplete st) := by
            intro x hx
            exact he x (List.mem_cons_of_mem e hx)
          rcases hmem with h1 | ⟨f, h2⟩ | ⟨st, h3⟩
          · subst h1; exact ih (acc) hrest
          · subst h2; exact ih (acc ++ [f]) hrest
          · subst h3; exact ih acc hrest
    exact main events [] h
  · show acquireGo (List.replicate n (FetchEvent.fetchErr true)) [] = _
    induction n with
    | zero => rfl
    | succ k ih => simpa [List.replicate_succ, acquireGo] using ih

/-- Witness for C10: a run seeing two timeouts, one frame, an incomplete
frame and another timeout returns True, and three pure timeouts return
True having enqueued nothing. -/
theorem acquire_images_timeouts_succeed_witness :
    (acquire_images true
        [FetchEvent.fetchErr true, FetchEvent.fetchErr true,
         FetchEvent.frame ⟨0, 5, 50⟩, FetchEvent.incomplete 1,
         FetchEvent.fetchErr true] true).result = true ∧
    acquire_images true (List.replicate 3 (FetchEvent.fetchErr true)) true =
      { result := true, pushed := [], endCalled := true } := by
  exact acquire_images_timeouts_succeed
    [FetchEvent.fetchErr true, FetchEvent.fetchErr true,
     FetchEvent.frame ⟨0, 5, 50⟩, FetchEvent.incomplete 1,
     FetchEvent.fetchErr true] 3 (by intro e he; fin_cases he <;> simp)

/-- Counterexample to C5 as stated, at one concrete run in which the
device raises a non-timeout `SpinnakerException` in `BeginAcquisition`,
in one `GetNextImage` call, and in `EndAcquisition`: the begin and end
errors are swallowed inside the `Camera` wrapper methods, the fetch
error is caught by the same handler as a timeout, the loop keeps
fetching (it still enqueues the following frame), and the function
returns True instead of stopping with a failure result. -/
theorem acquire_images_device_error_retried :
    acquire_images false
        [FetchEvent.fetchErr false, FetchEvent.frame ⟨0, 9, 90⟩] false =
      { result := true, pushed := [⟨0, 9, 90⟩], endCalled := true } ∧
    ¬ ((acquire_images false
        [FetchEvent.fetchErr false, FetchEvent.frame ⟨0, 9, 90⟩] false).result
          = false) := by
  exact ⟨rfl, by decide⟩

/-- C5 (amended): every `SpinnakerException` raised by the fetch call —
timeout or any other device error — is caught by the same handler and
retried; a `SpinnakerException` raised by post-fetch frame processing
stops the loop and yields a failure result; and device errors during
`BeginAcquisition`/`EndAcquisition` are swallowed (printed only) inside
the `Camera.begin_acquisition`/`end_acquisition` wrappers, so they
neither stop the loop nor change what `acquire_images` returns. -/
theorem acquire_images_error_surfacing :
    (∀ (events : List FetchEvent) (acc : List Frame) (b : Bool),
        acquireGo (FetchEvent.fetchErr b :: events) acc =
          acquireGo events acc) ∧
    (∀ (beginDeviceOk endDeviceOk : Bool) (events : List FetchEvent),
        FetchEvent.procErr ∈ events →
        (acquire_images beginDeviceOk events endDeviceOk).result = false) ∧
    (∀ (beginDeviceOk endDeviceOk : Bool) (events : List FetchEvent),
        FetchEvent.procErr ∉ events →
        (acquire_images beginDeviceOk events endDeviceOk).result = true) ∧
    (∀ (beginDeviceOk endDeviceOk : Bool) (events : List FetchEvent),
        acquire_images beginDeviceOk events endDeviceOk =
          acquire_images true events true) := by
  refine ⟨fun _ _ _ => rfl, ?_, ?_, fun _ _ _ => rfl⟩
  · have main : ∀ (es : List FetchEvent) (acc : List Frame),
        FetchEvent.procErr ∈ es → (acquireGo es acc).result = false := by
      intro es
      induction es with
      | nil => intro acc h; exact absurd h (List.not_mem_nil _)
      | cons e rest ih =>
          intro acc h
          cases e with
          | frame f =>
              have : FetchEvent.procErr ∈ rest := by
                rcases List.mem_cons.mp h with h1 | h1
                · simp at h1
                · exact h1
              exact ih (acc ++ [f]) this
          | incomplete st =>
              have : FetchEvent.procErr ∈ rest := by
                rcases List.mem_cons.mp h with h1 | h1
                · simp at h1
                · exact h1
              exact ih acc this
          | fetchErr b =>
              have : FetchEvent.procErr ∈ rest := by
                rcases List.mem_cons.mp h with h1 | h1
                · simp at h1
                · exact h1
              exact ih acc this
          | procErr => rfl
    intro beginDeviceOk endDeviceOk events h
    exact main events [] h
  · have main : ∀ (es : List FetchEvent) (acc : List Frame),
        FetchEvent.procErr ∉ es → (acquireGo es acc).result = true := by
      intro es
      induction es with
      | nil => intro acc _; rfl
      | cons e rest ih =>
          intro acc h
          have hrest : FetchEvent.procErr ∉ rest := fun hr =>
            h (List.mem_cons_of_mem e hr)
          cases e with
          | frame f => exact ih (acc ++ [f]) hrest
          | incomplete st => exact ih acc hrest
          | fetchErr b => exact ih acc hrest
          | procErr => exact absurd (List.mem_cons_self _ _) h
    intro beginDeviceOk endDeviceOk events h
    exact main events [] h

/-- Witness for C5 (amended) at concrete traces: a non-timeout fetch
exception is retried; a processing exception fails the run; a run of one
timeout with both begin and end device calls failing still returns True;
and begin/end device failures leave the whole outcome unchanged. -/
theorem acquire_images_error_surfacing_witness :
    acquireGo [FetchEvent.fetchErr false] [] = acquireGo [] [] ∧
    (acquire_images true [FetchEvent.frame ⟨0, 1, 10⟩, FetchEvent.procErr]
        true).result = false ∧
    (acquire_images false [FetchEvent.fetchErr true] false).result = true ∧
    acquire_images false [FetchEvent.frame ⟨0, 1, 10⟩] false =
      acquire_images true [FetchEvent.frame ⟨0, 1, 10⟩] true := by
  refine ⟨acquire_images_error_surfacing.1 [] [] false, ?_, ?_,
    acquire_images_error_surfacing.2.2.2 false false
      [FetchEvent.frame ⟨0, 1, 10⟩]⟩
  · exact acquire_images_error_surfacing.2.1 true true
      [FetchEvent.frame ⟨0, 1, 10⟩, FetchEvent.procErr] (by decide)
  · exact acquire_images_error_surfacing.2.2.1 false false
      [FetchEvent.fetchErr true] (by decide)

/-- The record `save_images` appends to `display_image_queue` for the
GUI: the pixel buffer plus a snapshot of the three counters. -/
structure DisplayData where
  image : Nat
  acquired_counter : Int
  buffered_counter : Int
  dropped_counter : Int
deriving DecidableEq, Repr

/-- An append to a `collections.deque(maxlen=m)`: the new item goes on
the right and, when the deque is full, the oldest item falls off the
left. `run_experiment_gui` builds `display_image_queue` with maxlen 1. -/
def bddPush (maxlen : Nat) (q : List DisplayData) (x : DisplayData) :
    List DisplayData :=
  List.drop ((q ++ [x]).length - maxlen) (q ++ [x])

/-- The state shared between `acquire_images` and `save_images`:
the unbounded `images_queue` deque, what `save_images` has so far written
to the AVI (`video_recorder.write`) and to the CSV (`log_writer.writerow`),
its `FrameCounter`, the maxlen-1 `display_image_queue`, the
`acquisition_complete_event` flag, and whether the save loop has hit its
`break`. -/
structure PipeState where
  queue : List Frame
  written : List Frame
  log : List (Int × Int)
  counter : FrameCounter
  tee : List DisplayData
  stop : Bool
  saveDone : Bool
deriving DecidableEq, Repr

/-- The initial shared state of `run_experiment_gui`/`run_experiment_cli`:
empty deques, a fresh counter, the event not yet set. -/
def PipeState.init : PipeState :=
  { queue := [], written := [], log := [], counter := FrameCounter.init,
    tee := [], stop := false, saveDone := false }

/-- One iteration of the `while True` loop of `save_images` (GUI variant,
which also tees to the display deque): if `images_queue` is non-empty,
pop the oldest frame, write it to the video sink, log its chunk
`(frame_id, timestamp)`, update the counter with the queue length left
after the pop, and push a display record; if the queue is empty, sleep
and `break` only when the stop event is set. Once broken out, further
iterations do not exist, modelled as the identity. -/
def saveStep (s : PipeState) : PipeState :=
  if s.saveDone then s
  else
    match s.queue with
    | f :: rest =>
        let c := s.counter.update (rest.length : Int) f.fid
        { s with queue := rest,
                 written := s.written ++ [f],
                 log := s.log ++ [(f.fid, f.ts)],
                 counter := c,
                 tee := bddPush 1 s.tee
                   ⟨f.image, c.acquired, c.buffered, c.dropped⟩ }
    | [] => if s.stop then { s with saveDone := true } else s

/-- An event in an interleaved run of the two stages: the acquisition
thread appending a converted frame to `images_queue`, the user (or GUI)
setting `acquisition_complete_event`, or one iteration of the
`save_images` loop. -/
inductive PipeAct
  | push (f : Frame)
  | setStop
  | save
deriving DecidableEq, Repr

/-- Run an interleaving of pipeline events against the shared state. -/
def runPipe : List PipeAct → PipeState → PipeState
  | [], s => s
  | PipeAct.push f :: rest, s => runPipe rest { s with queue := s.queue ++ [f] }
  | PipeAct.setStop :: rest, s => runPipe rest { s with stop := true }
  | PipeAct.save :: rest, s => runPipe rest (saveStep s)

/-- The frames an interleaving appends to `images_queue`, in order. -/
def pushesOf : List PipeAct → List Frame
  | [] => []
  | PipeAct.push f :: rest => f :: pushesOf rest
  | PipeAct.setStop :: rest => pushesOf rest
  | PipeAct.save :: rest => pushesOf rest

lemma saveStep_written_queue (s : PipeState) :
    (saveStep s).written ++ (saveStep s).queue = s.written ++ s.queue := by
  unfold saveStep
  by_cases h : s.saveDone
  · simp [h]
  · simp only [h, if_false]
    cases hq : s.queue with
    | nil => by_cases hs : s.stop <;> simp [hs, hq]
    | cons f rest => simp [hq]

/-- C3: across every interleaving of producer appends, stop requests and
consumer iterations, the frames `save_images` has written followed by the
frames still queued equal exactly the frames pushed, in push order — the
deque hand-off is FIFO with no reordering, loss or duplication; in
particular pushing ids 5,6,7 and then draining writes ids 5,6,7 in that
order. -/
theorem transfer_queue_fifo :
    (∀ (acts : List PipeAct) (s : PipeState),
        (runPipe acts s).written ++ (runPipe acts s).queue =
          s.written ++ s.queue ++ pushesOf acts) ∧
    ((runPipe
        [PipeAct.push ⟨0, 5, 50⟩, PipeAct.push ⟨1, 6, 60⟩,
         PipeAct.push ⟨2, 7, 70⟩, PipeAct.setStop,
         PipeAct.save, PipeAct.save, PipeAct.save, PipeAct.save]
        PipeState.init).written.map Frame.fid = [5, 6, 7]) := by
  constructor
  · intro acts
    induction acts with
    | nil => intro s; simp [runPipe, pushesOf]
    | cons a rest ih =>
        intro s
        cases a with
        | push f =>
            simp only [runPipe]
            rw [ih]
            simp [pushesOf]
        | setStop =>
            simp only [runPipe]
            rw [ih]
            simp [pushesOf]
        | save =>
            simp only [runPipe]
            rw [ih, saveStep_written_queue]
            simp [pushesOf]
  · rfl

lemma saveStep_preserves (s : PipeState) :
    (saveStep s).stop = s.stop ∧
    ((saveStep s).saveDone = true → s.saveDone = true ∨
      (s.queue = [] ∧ s.stop = true)) := by
  unfold saveStep
  by_cases h : s.saveDone
  · simp [h]
  · simp only [h, if_false]
    cases hq : s.queue with
    | nil =>
        by_cases hs : s.stop
        · simp [hs]
        · simp [hs, h]
    | cons f rest => simp [h]

lemma runPipe_save_cons (acts : List PipeAct) (s : PipeState) :
    runPipe (PipeAct.save :: acts) s = runPipe acts (saveStep s) := rfl

lemma drain_on_stop :
    ∀ (q : List Frame) (s : PipeState), s.queue = q → s.stop = true →
      s.saveDone = false →
      (runPipe (List.replicate (q.length + 1) PipeAct.save) s).saveDone
          = true ∧
      (runPipe (List.replicate (q.length + 1) PipeAct.save) s).written
          = s.written ++ q ∧
      (runPipe (List.replicate (q.length + 1) PipeAct.save) s).queue = [] := by
  intro q
  induction q with
  | nil =>
      intro s hq hstop hdone
      show (runPipe [PipeAct.save] s).saveDone = true ∧ _
      have hstep : saveStep s = { s with saveDone := true } := by
        unfold saveStep
        rw [hdone, hq]
        simp [hstop]
      simp [runPipe, hstep, hq]
  | cons f rest ih =>
      intro s hq hstop hdone
      have hstep : saveStep s =
          { s with queue := rest, written := s.written ++ [f],
                   log := s.log ++ [(f.fid, f.ts)],
                   counter := s.counter.update (rest.length : Int) f.fid,
                   tee := bddPush 1 s.tee
                     ⟨f.image, (s.counter.update (rest.length : Int) f.fid).acquired,
                      (s.counter.update (rest.length : Int) f.fid).buffered,
                      (s.counter.update (rest.length : Int) f.fid).dropped⟩ } := by
        unfold saveStep
        rw [hdone, hq]
        simp
      have hrepl : List.replicate ((f :: rest).length + 1) PipeAct.save =
          PipeAct.save :: List.replicate (rest.length + 1) PipeAct.save := by
        simp [List.replicate_succ]
      rw [hrepl, runPipe_save_cons]
      obtain ⟨h1, h2, h3⟩ := ih (saveStep s) (by rw [hstep]) (by rw [hstep]; exact hstop)
        (by rw [hstep]; exact hdone)
      refine ⟨h1, ?_, h3⟩
      rw [h2, hstep]
      simp

/-- C2: the `save_images` loop breaks only after observing `images_queue`
empty with the stop event set, and once the stop event is set with N
frames still queued, N+1 further loop iterations write all N queued
frames in order and terminate with the queue drained — no enqueued frame
is discarded on shutdown. -/
theorem storage_drains_before_exit :
    (∀ s : PipeState, (saveStep s).saveDone = true →
        s.saveDone = true ∨ (s.queue = [] ∧ s.stop = true)) ∧
    (∀ s : PipeState, s.stop = true → s.saveDone = false →
        (runPipe (List.replicate (s.queue.length + 1) PipeAct.save)
            s).saveDone = true ∧
        (runPipe (List.replicate (s.queue.length + 1) PipeAct.save)
            s).written = s.written ++ s.queue ∧
        (runPipe (List.replicate (s.queue.length + 1) PipeAct.save)
            s).queue = []) := by
  refine ⟨fun s => (saveStep_preserves s).2, ?_⟩
  intro s hstop hdone
  exact drain_on_stop s.queue s rfl hstop hdone

/-- Witness for C2: from a stopped state with two frames queued, three
save iterations write both frames and terminate with an empty queue; and
that terminal step indeed only fires on an empty queue with stop set. -/
theorem storage_drains_before_exit_witness :
    ((saveStep { PipeState.init with stop := true, saveDone := true }).saveDone
        = true →
      ({ PipeState.init with stop := true, saveDone := true } :
        PipeState).saveDone = true ∨
      (({ PipeState.init with stop := true, saveDone := true } :
        PipeState).queue = [] ∧
       ({ PipeState.init with stop := true, saveDone := true } :
        PipeState).stop = true)) ∧
    ((runPipe (List.replicate
        (({ PipeState.init with
              queue := [⟨0, 5, 50⟩, ⟨1, 6, 60⟩], stop := true } :
            PipeState).queue.length + 1) PipeAct.save)
        { PipeState.init with
            queue := [⟨0, 5, 50⟩, ⟨1, 6, 60⟩], stop := true }).saveDone
        = true ∧
      (runPipe (List.replicate
        (({ PipeState.init with
              queue := [⟨0, 5, 50⟩, ⟨1, 6, 60⟩], stop := true } :
            PipeState).queue.length + 1) PipeAct.save)
        { PipeState.init with
            queue := [⟨0, 5, 50⟩, ⟨1, 6, 60⟩], stop := true }).written
        = ({ PipeState.init with
              queue := [⟨0, 5, 50⟩, ⟨1, 6, 60⟩], stop := true } :
            PipeState).written ++
          ({ PipeState.init with
              queue := [⟨0, 5, 50⟩, ⟨1, 6, 60⟩], stop := true } :
            PipeState).queue ∧
      (runPipe (List.replicate
        (({ PipeState.init with
              queue := [⟨0, 5, 50⟩, ⟨1, 6, 60⟩], stop := true } :
            PipeState).queue.length + 1) PipeAct.save)
        { PipeState.init with
            queue := [⟨0, 5, 50⟩, ⟨1, 6, 60⟩], stop := true }).queue = []) := by
  exact ⟨storage_drains_before_exit.1 _,
    storage_drains_before_exit.2
      { PipeState.init with queue := [⟨0, 5, 50⟩, ⟨1, 6, 60⟩], stop := true }
      rfl rfl⟩

/-- C7: whenever a `save_images` iteration pops a frame, the counter's
`buffered` field afterwards equals the length of the queue left behind —
a snapshot of the depth at the moment of the pop, overwriting the
previous value whatever it was. -/
theorem buffered_is_queue_depth_snapshot (s : PipeState) (f : Frame)
    (rest : List Frame) (hdone : s.saveDone = false)
    (hq : s.queue = f :: rest) :
    (saveStep s).counter.buffered = ((saveStep s).queue.length : Int) ∧
    (saveStep s).counter.buffered = (rest.length : Int) ∧
    (saveStep s).queue = rest := by
  have hstep : saveStep s =
      { s with queue := rest, written := s.written ++ [f],
               log := s.log ++ [(f.fid, f.ts)],
               counter := s.counter.update (rest.length : Int) f.fid,
               tee := bddPush 1 s.tee
                 ⟨f.image, (s.counter.update (rest.length : Int) f.fid).acquired,
                  (s.counter.update (rest.length : Int) f.fid).buffered,
                  (s.counter.update (rest.length : Int) f.fid).dropped⟩ } := by
    unfold saveStep
    rw [hdone, hq]
    simp
  have hbuf : (s.counter.update (rest.length : Int) f.fid).buffered =
      (rest.length : Int) := by
    unfold FrameCounter.update
    cases s.counter.last_frameid <;> rfl
  rw [hstep]
  exact ⟨hbuf, hbuf, rfl⟩

/-- Witness for C7: popping the only queued frame in a stopped-free run
leaves `buffered` equal to 0, the depth of the now-empty queue. -/
theorem buffered_is_queue_depth_snapshot_witness :
    (saveStep { PipeState.init with
        queue := [⟨0, 5, 50⟩] }).counter.buffered =
      ((saveStep { PipeState.init with
          queue := [⟨0, 5, 50⟩] }).queue.length : Int) ∧
    (saveStep { PipeState.init with
        queue := [⟨0, 5, 50⟩] }).counter.buffered = ((0 : Nat) : Int) ∧
    (saveStep { PipeState.init with queue := [⟨0, 5, 50⟩] }).queue = [] := by
  have h := buffered_is_queue_depth_snapshot
    { PipeState.init with queue := [⟨0, 5, 50⟩] } ⟨0, 5, 50⟩ [] rfl rfl
  exact ⟨h.1, by simpa using h.2.1, h.2.2⟩

/-- C8: appending to the maxlen-1 `display_image_queue` always leaves
exactly the newly pushed record; in particular pushing A and then B with
no intervening pop leaves only B retrievable. -/
theorem display_tee_keeps_latest :
    (∀ (q : List DisplayData) (x : DisplayData), bddPush 1 q x = [x]) ∧
    (∀ (q : List DisplayData) (A B : DisplayData),
        bddPush 1 (bddPush 1 q A) B = [B]) := by
  have hsingle : ∀ (q : List DisplayData) (x : DisplayData),
      bddPush 1 q x = [x] := by
    intro q x
    unfold bddPush
    have hlen : (q ++ [x]).length - 1 = q.length := by
      simp
    rw [hlen]
    exact List.drop_left q [x]
  exact ⟨hsingle, fun q A B => hsingle _ B⟩

/-- One observed iteration of the `save_images` loop for resource-path
analysis: a frame popped and written successfully; a frame popped whose
`GetNDArray`/`write`/chunk extraction raises a `SpinnakerException`; the
queue seen empty with the stop event clear (sleep and loop); the queue
seen empty with the stop event set (`break`). -/
inductive SaveEvent
  | writeFrame (f : Frame)
  | writeFail (f : Frame)
  | idleNoStop
  | idleStop
deriving DecidableEq, Repr

/-- What a terminated run of `save_images` did: the bool it returned, the
frames written before exit, and whether control reached the
`logfile.close()` / `video_recorder.release()` lines after the loop. -/
structure SaveOutcome where
  result : Bool
  written : List Frame
  filesClosed : Bool
deriving DecidableEq, Repr

/-- The exit paths of the `save_images` loop: on `idleStop` the loop
breaks and the file-closing lines run; on a write failure the
`SpinnakerException` escapes to the `except` handler which returns False
at once, never reaching `logfile.close()` or `video_recorder.release()`
(the source's TODO notes the missing context managers). A trace that
never terminates the loop yields no outcome. -/
def saveGo : List SaveEvent → List Frame → Option SaveOutcome
  | [], _ => none
  | SaveEvent.writeFrame f :: rest, acc => saveGo rest (acc ++ [f])
  | SaveEvent.writeFail _ :: _, acc =>
      some { result := false, written := acc, filesClosed := false }
  | SaveEvent.idleNoStop :: rest, acc => saveGo rest acc
  | SaveEvent.idleStop :: _, acc =>
      some { result := true, written := acc, filesClosed := true }

/-- C6 fails on the code: a `SpinnakerException` during frame processing
makes `acquire_images` skip `end_acquisition()` (the call sits inside the
`try`, after the loop, with no finally), and a write failure makes
`save_images` return from its `except` handler without ever reaching
`logfile.close()` or `video_recorder.release()`. Evaluated at the
failing inputs: one processing error after a successful frame, and a
write failure on the first popped frame. -/
theorem resource_release_skipped_on_error :
    (acquire_images true [FetchEvent.frame ⟨0, 5, 50⟩, FetchEvent.procErr]
        true).endCalled = false ∧
    (acquire_images true [FetchEvent.frame ⟨0, 5, 50⟩, FetchEvent.procErr]
        true).result = false ∧
    saveGo [SaveEvent.writeFail ⟨0, 5, 50⟩] [] =
      some { result := false, written := [], filesClosed := false } ∧
    saveGo [SaveEvent.writeFrame ⟨0, 5, 50⟩, SaveEvent.idleStop] [] =
      some { result := true, written := [⟨0, 5, 50⟩], filesClosed := true } := by
  exact ⟨rfl, rfl, rfl, rfl⟩

/-- What happened inside the `try` of
`get_id_timestamp_from_chunk_data`: both chunk reads succeeded, or
`GetChunkData` raised, or `GetFrameID` raised, or `GetTimestamp` raised
after the frame id was already bound. -/
inductive ChunkOutcome
  | ok (fid ts : Int)
  | failChunk
  | failId
  | failTs (fid : Int)
deriving DecidableEq, Repr

/-- A Python error escaping `get_id_timestamp_from_chunk_data`: the
`NameError`/`UnboundLocalError` raised by `return frame_id, timestamp`
when the handler fell through with a local never assigned. -/
inductive PyErr
  | unboundLocal
deriving DecidableEq, Repr

/-- `get_id_timestamp_from_chunk_data` with Python local binding made
explicit: the `try` body binds `frame_id` and `timestamp` as far as it
got before the `SpinnakerException`; the handler only prints, and the
final `return frame_id, timestamp` raises if either local is unbound. -/
def get_id_timestamp_from_chunk_data (c : ChunkOutcome) :
    Except PyErr (Int × Int) :=
  let locals : Option Int × Option Int :=
    match c with
    | ChunkOutcome.ok fid ts => (some fid, some ts)
    | ChunkOutcome.failChunk => (none, none)
    | ChunkOutcome.failId => (none, none)
    | ChunkOutcome.failTs fid => (some fid, none)
  match locals with
  | (some fid, some ts) => Except.ok (fid, ts)
  | _ => Except.error PyErr.unboundLocal

/-- C9: `get_id_timestamp_from_chunk_data` returns a pair exactly when
chunk extraction fully succeeded; every failing extraction ends in the
secondary unbound-local error from the `return` statement rather than
any returned value — the error branch is not total. -/
theorem chunk_extraction_error_branch_not_total :
    (∀ c : ChunkOutcome,
        (∃ p, get_id_timestamp_from_chunk_data c = Except.ok p) ↔
          ∃ fid ts, c = ChunkOutcome.ok fid ts) ∧
    get_id_timestamp_from_chunk_data ChunkOutcome.failChunk =
      Except.error PyErr.unboundLocal ∧
    get_id_timestamp_from_chunk_data ChunkOutcome.failId =
      Except.error PyErr.unboundLocal ∧
    (∀ fid : Int,
        get_id_timestamp_from_chunk_data (ChunkOutcome.failTs fid) =
          Except.error PyErr.unboundLocal) := by
  refine ⟨?_, rfl, rfl, fun _ => rfl⟩
  intro c
  constructor
  · intro ⟨p, hp⟩
    cases c with
    | ok fid ts => exact ⟨fid, ts, rfl⟩
    | failChunk => exact absurd hp (by simp [get_id_timestamp_from_chunk_data])
    | failId => exact absurd hp (by simp [get_id_timestamp_from_chunk_data])
    | failTs fid => exact absurd hp (by simp [get_id_timestamp_from_chunk_data])
  · intro ⟨fid, ts, hc⟩
    subst hc
    exact ⟨(fid, ts), rfl⟩
